import Mathlib

/-!
Verification of the memilio epidata pipeline against its design specification.

The development shallowly embeds the Python sources:
  * `pycode/epidemiology/epidata/getPopulationData.py` (county reconciliation
    `get_new_counties`, ratio rescaling in `get_age_population_data`),
  * `pycode/memilio-epidata/memilio/epidata/getDataIntoPandasDataFrame.py`
    (`download_file`, `loadCsv`, `write_dataframe`, `check_dir`),
  * `pycode/epidemiology/epidata/cleanData.py` (`cli`, `main`).

A matrix row of the numpy county matrix is embedded as a pair of its region
key (column 0) and the list of its remaining columns.  Mutation of the numpy
array is embedded as explicit state passing; Python exceptions are embedded
with `Except`.
-/

namespace Memilio

/-- A row of the county matrix: region key (column 0) and the remaining
columns (`data_temp[i, 1:]` in the source). -/
abbrev Row := Int × List Int

/-- The 7 successor region keys written into the appended rows by
`get_new_counties` (`data_temp[-7,0] = 3159`, ..., `data_temp[-1,0] = 13076`). -/
def newCountyKeys : List Int := [3159, 13071, 13072, 13073, 13074, 13075, 13076]

/-- The predecessor key sets of the seven `if data_temp[i,0] in [...]` blocks
of `get_new_counties`, in source order (Göttingen, Mecklenburgische
Seenplatte, Landkreis Rostock, Vorpommern Rügen, Nordwestmecklenburg,
Vorpommern Greifswald, Ludwigslust-Parchim). -/
def predKeys : List (List Int) :=
  [[3152, 3156],
   [13056, 13002, 13055, 13052],
   [13051, 13053],
   [13061, 13005, 13057],
   [13006, 13058],
   [13059, 13062, 13001],
   [13054, 13060]]

/-- All predecessor keys of the fixed reconciliation table. -/
def predUnion : List Int := predKeys.flatten

/-- One `if data_temp[i,0] in predKeys[g]` block of the loop body of
`get_new_counties`: add row `i`'s value columns onto the `g`-th appended row
(index `len - 7 + g`) and record `i` in `to_delete`. -/
def fuseGroup (g i : Nat) (st : List Row × List Nat) : List Row × List Nat :=
  if (st.1.getD i (0, [])).1 ∈ predKeys.getD g [] then
    (st.1.set (st.1.length - 7 + g)
       ((st.1.getD (st.1.length - 7 + g) (0, [])).1,
        List.zipWith (· + ·) (st.1.getD (st.1.length - 7 + g) (0, [])).2
          (st.1.getD i (0, [])).2),
     st.2 ++ [i])
  else st

/-- One iteration of the `for i in range(len(data_temp[:,0]))` loop of
`get_new_counties`: the seven successive `if` blocks for row `i`. -/
def fuseRow (i : Nat) (st : List Row × List Nat) : List Row × List Nat :=
  fuseGroup 6 i (fuseGroup 5 i (fuseGroup 4 i (fuseGroup 3 i
    (fuseGroup 2 i (fuseGroup 1 i (fuseGroup 0 i st))))))

/-- The whole fuse loop of `get_new_counties`, started on the appended matrix
with an empty `to_delete` list. -/
def fuseAll (rows : List Row) : List Row × List Nat :=
  (List.range rows.length).foldl (fun st i => fuseRow i st) (rows, [])

/-- Embedding of `np.delete(data_temp, to_delete, 0)`: drop the rows whose
position is listed in `to_delete` (`i` is the position of the head of the
remaining list). -/
def deleteRowsAux (toDelete : List Nat) : Nat → List Row → List Row
  | _, [] => []
  | i, r :: rs =>
    if i ∈ toDelete then deleteRowsAux toDelete (i + 1) rs
    else r :: deleteRowsAux toDelete (i + 1) rs

/-- Row deletion by position, as `np.delete(data_temp, to_delete, 0)`. -/
def deleteRows (rows : List Row) (toDelete : List Nat) : List Row :=
  deleteRowsAux toDelete 0 rows

/-- Embedding of `data_temp[np.argsort(data_temp[:,0]), :]`: re-sort the rows
ascending by the key column. -/
def sortByKey (rows : List Row) : List Row :=
  rows.mergeSort (fun a b => decide (a.1 ≤ b.1))

/-- Number of value columns of the matrix (`data_temp.shape[1] - 1`), read
off the first row. -/
def valsWidth (data : List Row) : Nat :=
  match data with
  | [] => 0
  | r :: _ => r.2.length

/-- Embedding of `get_new_counties` of `getPopulationData.py`: append 7 zero
rows carrying the successor keys, run the fuse loop, delete the predecessor
rows, and re-sort ascending by key. -/
def get_new_counties (data : List Row) : List Row :=
  let w := valsWidth data
  let rows := data ++ newCountyKeys.map (fun k => (k, List.replicate w 0))
  let st := fuseAll rows
  sortByKey (deleteRows st.1 st.2)

/-- Pure recomputation of one `if` block acting on the 7 appended rows
only (`cur`), used to state the loop invariant of the fuse loop. -/
def accumGroup (g : Nat) (cur : List Row) (r : Row) : List Row :=
  if r.1 ∈ predKeys.getD g [] then
    cur.set g ((cur.getD g (0, [])).1,
      List.zipWith (· + ·) (cur.getD g (0, [])).2 r.2)
  else cur

/-- Pure recomputation of one loop iteration on the 7 appended rows. -/
def accumRow (cur : List Row) (r : Row) : List Row :=
  accumGroup 6 (accumGroup 5 (accumGroup 4 (accumGroup 3
    (accumGroup 2 (accumGroup 1 (accumGroup 0 cur r) r) r) r) r) r) r

/-- Pure recomputation of the effect of the whole fuse loop on the 7
appended rows after processing the input rows `l`. -/
def fuseData (l : List Row) (cur : List Row) : List Row :=
  l.foldl accumRow cur

/-- The `to_delete` entries contributed by one loop iteration for a row with
key `k` at position `i`. -/
def rowDelta (k : Int) (i : Nat) : List Nat :=
  (if k ∈ predKeys.getD 0 [] then [i] else []) ++
  ((if k ∈ predKeys.getD 1 [] then [i] else []) ++
  ((if k ∈ predKeys.getD 2 [] then [i] else []) ++
  ((if k ∈ predKeys.getD 3 [] then [i] else []) ++
  ((if k ∈ predKeys.getD 4 [] then [i] else []) ++
  ((if k ∈ predKeys.getD 5 [] then [i] else []) ++
  (if k ∈ predKeys.getD 6 [] then [i] else []))))))

/-- The `to_delete` list accumulated over the first `m` loop iterations,
expressed over the key column `ks` of the input matrix. -/
def delList (ks : List Int) (m : Nat) : List Nat :=
  (List.range m).foldl (fun acc i => acc ++ rowDelta (ks.getD i 0) i) []

/-- Accumulation of the value columns of all rows of `l` whose key lies in
`preds`, starting from `z` (the content of one appended row). -/
def accumVals (preds : List Int) (z : List Int) (l : List Row) : List Int :=
  l.foldl (fun acc r => if r.1 ∈ preds then List.zipWith (· + ·) acc r.2 else acc) z

/-! Generic list helper lemmas. -/

lemma set_getD_eq {α : Type} (l : List α) (t : Nat) (d : α) :
    l.set t (l.getD t d) = l := by
  induction l generalizing t with
  | nil => rfl
  | cons a l ih =>
    cases t with
    | zero => simp
    | succ t' => simpa [List.set] using ih t'

lemma getD_set_of_ne {α : Type} (l : List α) (i j : Nat) (x d : α) (h : i ≠ j) :
    (l.set i x).getD j d = l.getD j d := by
  induction l generalizing i j with
  | nil => simp
  | cons a l ih =>
    cases i with
    | zero =>
      cases j with
      | zero => exact absurd rfl h
      | succ j' => simp
    | succ i' =>
      cases j with
      | zero => simp
      | succ j' => simpa using ih i' j' (fun e => h (by omega))

lemma getD_set_self {α : Type} (l : List α) (i : Nat) (x d : α) (h : i < l.length) :
    (l.set i x).getD i d = x := by
  induction l generalizing i with
  | nil => simp at h
  | cons a l ih =>
    cases i with
    | zero => simp
    | succ i' => simpa using ih i' (by simpa using h)

/-- Setting a row to a pair with the unchanged key leaves the key column
untouched. -/
lemma map_fst_set_key (M : List Row) (t : Nat) (v : List Int) :
    (M.set t ((M.getD t (0, [])).1, v)).map Prod.fst = M.map Prod.fst := by
  rw [List.map_set]
  have h : (M.getD t ((0 : Int), ([] : List Int))).1
      = (M.map Prod.fst).getD t 0 := by
    have := List.getD_map M ((0 : Int), ([] : List Int)) Prod.fst (n := t)
    simpa using this.symm
  calc (M.map Prod.fst).set t ((M.getD t (0, [])).1, v).1
      = (M.map Prod.fst).set t ((M.map Prod.fst).getD t 0) := by rw [← h]
    _ = M.map Prod.fst := set_getD_eq _ _ _

/-- The key read at position `i` only depends on the key column. -/
lemma getD_fst_eq_of_map_fst_eq {M M' : List Row}
    (h : M.map Prod.fst = M'.map Prod.fst) (i : Nat) :
    (M.getD i (0, [])).1 = (M'.getD i (0, [])).1 := by
  have h1 := List.getD_map M ((0 : Int), ([] : List Int)) Prod.fst (n := i)
  have h2 := List.getD_map M' ((0 : Int), ([] : List Int)) Prod.fst (n := i)
  simp only at h1 h2
  rw [← h1, ← h2, h]

/-! Component lemmas for `fuseGroup` and `fuseRow`. -/

lemma fuseGroup_fst_map_fst (g i : Nat) (st : List Row × List Nat) :
    (fuseGroup g i st).1.map Prod.fst = st.1.map Prod.fst := by
  unfold fuseGroup
  split
  · exact map_fst_set_key _ _ _
  · rfl

lemma fuseGroup_fst_length (g i : Nat) (st : List Row × List Nat) :
    (fuseGroup g i st).1.length = st.1.length := by
  unfold fuseGroup
  split
  · simp
  · rfl

lemma fuseGroup_snd (g i : Nat) (st : List Row × List Nat) :
    (fuseGroup g i st).2
      = st.2 ++ (if (st.1.getD i (0, [])).1 ∈ predKeys.getD g [] then [i] else []) := by
  unfold fuseGroup
  split <;> simp_all

lemma fuseRow_fst_map_fst (i : Nat) (st : List Row × List Nat) :
    (fuseRow i st).1.map Prod.fst = st.1.map Prod.fst := by
  unfold fuseRow
  simp only [fuseGroup_fst_map_fst]

lemma fuseRow_snd (i : Nat) (st : List Row × List Nat) :
    (fuseRow i st).2 = st.2 ++ rowDelta (st.1.getD i (0, [])).1 i := by
  have key : ∀ (g : Nat) (st' : List Row × List Nat),
      ((fuseGroup g i st').1.getD i (0, [])).1 = (st'.1.getD i (0, [])).1 :=
    fun g st' => getD_fst_eq_of_map_fst_eq (fuseGroup_fst_map_fst g i st') i
  unfold fuseRow
  simp only [fuseGroup_snd, key, rowDelta, List.append_assoc]

/-- If the key at position `i` is not a predecessor key, the iteration for
row `i` leaves the state unchanged. -/
lemma fuseRow_of_not_mem (i : Nat) (st : List Row × List Nat)
    (h : (st.1.getD i (0, [])).1 ∉ predUnion) : fuseRow i st = st := by
  have hg : ∀ g : Nat, g < 7 → (st.1.getD i (0, [])).1 ∉ predKeys.getD g [] := by
    intro g hlt hmem
    apply h
    have : predKeys.getD g [] ∈ predKeys := by
      interval_cases g <;> simp [predKeys]
    exact List.mem_flatten.mpr ⟨_, this, hmem⟩
  have step : ∀ g : Nat, g < 7 → ∀ st' : List Row × List Nat,
      st'.1.map Prod.fst = st.1.map Prod.fst →
      fuseGroup g i st' = st' := by
    intro g hlt st' hmapeq
    unfold fuseGroup
    rw [if_neg]
    rw [getD_fst_eq_of_map_fst_eq hmapeq]
    exact hg g hlt
  unfold fuseRow
  rw [step 0 (by omega) st rfl, step 1 (by omega) st rfl, step 2 (by omega) st rfl,
    step 3 (by omega) st rfl, step 4 (by omega) st rfl, step 5 (by omega) st rfl,
    step 6 (by omega) st rfl]

/-! Shape of one loop iteration on a matrix `data ++ cur` whose last 7 rows
are `cur`. -/

lemma fuseGroup_append (g : Nat) (hg : g < 7) (data cur : List Row)
    (h7 : cur.length = 7) (i : Nat) (hi : i < data.length) (td : List Nat) :
    fuseGroup g i (data ++ cur, td)
      = (data ++ accumGroup g cur (data.getD i (0, [])),
         td ++ (if (data.getD i (0, [])).1 ∈ predKeys.getD g [] then [i] else [])) := by
  have hlen : (data ++ cur).length = data.length + 7 := by simp [h7]
  have ht : (data ++ cur).length - 7 + g = data.length + g := by omega
  have hread : (data ++ cur).getD i (0, []) = data.getD i (0, []) :=
    List.getD_append _ _ _ _ hi
  have htgt : (data ++ cur).getD (data.length + g) (0, []) = cur.getD g (0, []) := by
    rw [List.getD_append_right _ _ _ _ (by omega)]
    congr 1
    omega
  have hsub : data.length + g - data.length = g := by omega
  have hset : ∀ v : Row, (data ++ cur).set (data.length + g) v = data ++ cur.set g v := by
    intro v
    rw [List.set_append_right _ _ (by omega), hsub]
  unfold fuseGroup accumGroup
  simp only [ht, hread, htgt, hset]
  split <;> simp

lemma fuseRow_append (i : Nat) (data cur : List Row)
    (h7 : cur.length = 7) (hi : i < data.length) (td : List Nat) :
    fuseRow i (data ++ cur, td)
      = (data ++ accumRow cur (data.getD i (0, [])),
         td ++ rowDelta (data.getD i (0, [])).1 i) := by
  have hlen : ∀ (g : Nat) (c : List Row) (r : Row),
      (accumGroup g c r).length = c.length := by
    intro g c r
    unfold accumGroup
    split <;> simp
  unfold fuseRow accumRow rowDelta
  rw [fuseGroup_append 0 (by omega) data cur h7 i hi,
      fuseGroup_append 1 (by omega) data _ (by rw [hlen]; exact h7) i hi,
      fuseGroup_append 2 (by omega) data _ (by rw [hlen, hlen]; exact h7) i hi,
      fuseGroup_append 3 (by omega) data _ (by rw [hlen, hlen, hlen]; exact h7) i hi,
      fuseGroup_append 4 (by omega) data _ (by rw [hlen, hlen, hlen, hlen]; exact h7) i hi,
      fuseGroup_append 5 (by omega) data _
        (by rw [hlen, hlen, hlen, hlen, hlen]; exact h7) i hi,
      fuseGroup_append 6 (by omega) data _
        (by rw [hlen, hlen, hlen, hlen, hlen, hlen]; exact h7) i hi]
  simp [List.append_assoc]

/-! Invariant of the fuse loop. -/

lemma accumGroup_length (g : Nat) (c : List Row) (r : Row) :
    (accumGroup g c r).length = c.length := by
  unfold accumGroup
  split <;> simp

lemma accumGroup_map_fst (g : Nat) (c : List Row) (r : Row) :
    (accumGroup g c r).map Prod.fst = c.map Prod.fst := by
  unfold accumGroup
  split
  · exact map_fst_set_key _ _ _
  · rfl

lemma accumRow_length (c : List Row) (r : Row) :
    (accumRow c r).length = c.length := by
  unfold accumRow
  simp only [accumGroup_length]

lemma accumRow_map_fst (c : List Row) (r : Row) :
    (accumRow c r).map Prod.fst = c.map Prod.fst := by
  unfold accumRow
  simp only [accumGroup_map_fst]

lemma fuseData_length (l : List Row) (cur : List Row) :
    (fuseData l cur).length = cur.length := by
  induction l generalizing cur with
  | nil => rfl
  | cons r l ih => simpa [fuseData] using (ih (accumRow cur r)).trans (accumRow_length cur r)

lemma fuseData_map_fst (l : List Row) (cur : List Row) :
    (fuseData l cur).map Prod.fst = cur.map Prod.fst := by
  induction l generalizing cur with
  | nil => rfl
  | cons r l ih => simpa [fuseData] using (ih (accumRow cur r)).trans (accumRow_map_fst cur r)

lemma not_mem_group_of_not_mem_predUnion {k : Int} (h : k ∉ predUnion)
    (g : Nat) (hg : g < 7) : k ∉ predKeys.getD g [] := by
  intro hmem
  apply h
  have hin : predKeys.getD g [] ∈ predKeys := by
    interval_cases g <;> simp [predKeys]
  exact List.mem_flatten.mpr ⟨_, hin, hmem⟩

lemma rowDelta_of_not_mem {k : Int} (h : k ∉ predUnion) (i : Nat) :
    rowDelta k i = [] := by
  unfold rowDelta
  rw [if_neg (not_mem_group_of_not_mem_predUnion h 0 (by omega)),
      if_neg (not_mem_group_of_not_mem_predUnion h 1 (by omega)),
      if_neg (not_mem_group_of_not_mem_predUnion h 2 (by omega)),
      if_neg (not_mem_group_of_not_mem_predUnion h 3 (by omega)),
      if_neg (not_mem_group_of_not_mem_predUnion h 4 (by omega)),
      if_neg (not_mem_group_of_not_mem_predUnion h 5 (by omega)),
      if_neg (not_mem_group_of_not_mem_predUnion h 6 (by omega))]
  rfl

lemma newCountyKeys_getD_not_mem_predUnion (j : Nat) :
    newCountyKeys.getD j 0 ∉ predUnion := by
  match j with
  | 0 | 1 | 2 | 3 | 4 | 5 | 6 => decide
  | j + 7 =>
    rw [List.getD_eq_default]
    · decide
    · simp [newCountyKeys]

lemma delList_succ (ks : List Int) (m : Nat) :
    delList ks (m + 1) = delList ks m ++ rowDelta (ks.getD m 0) m := by
  unfold delList
  rw [List.range_succ, List.foldl_append]
  rfl

lemma take_succ_of_lt {α : Type} (l : List α) (m : Nat) (d : α) (h : m < l.length) :
    l.take (m + 1) = l.take m ++ [l.getD m d] := by
  rw [List.take_succ]
  congr 1
  rw [List.getElem?_eq_getElem h, List.getD_eq_getElem _ _ h]
  rfl

lemma fuseLoop_invariant (data cur₀ : List Row) (h7 : cur₀.length = 7)
    (hk : cur₀.map Prod.fst = newCountyKeys) (m : Nat) :
    (List.range m).foldl (fun st i => fuseRow i st) (data ++ cur₀, ([] : List Nat))
      = (data ++ fuseData (data.take m) cur₀, delList (data.map Prod.fst) m) := by
  induction m with
  | zero => simp [fuseData, delList]
  | succ m ih =>
    rw [List.range_succ, List.foldl_append, ih]
    simp only [List.foldl_cons, List.foldl_nil]
    have hcm : (fuseData (data.take m) cur₀).length = 7 := by
      rw [fuseData_length]; exact h7
    by_cases hm : m < data.length
    · rw [fuseRow_append m data _ hcm hm]
      rw [take_succ_of_lt data m (0, []) hm, delList_succ]
      have hks : (data.map Prod.fst).getD m 0 = (data.getD m (0, [])).1 := by
        have h2 := List.getD_map data ((0 : Int), ([] : List Int)) Prod.fst (n := m)
        simpa using h2
      rw [hks]
      simp [fuseData, List.foldl_append]
    · have hnm : data.length ≤ m := by omega
      have hkey : ((data ++ fuseData (data.take m) cur₀).getD m (0, [])).1 ∉ predUnion := by
        rw [List.getD_append_right _ _ _ _ hnm]
        have h1 : ((fuseData (data.take m) cur₀).getD (m - data.length) (0, [])).1
            = newCountyKeys.getD (m - data.length) 0 := by
          have h2 := List.getD_map (fuseData (data.take m) cur₀)
            ((0 : Int), ([] : List Int)) Prod.fst (n := m - data.length)
          simp only at h2
          rw [← h2, fuseData_map_fst, hk]
        rw [h1]
        exact newCountyKeys_getD_not_mem_predUnion _
      rw [fuseRow_of_not_mem m _ hkey]
      rw [List.take_of_length_le hnm, List.take_of_length_le (by omega), delList_succ]
      have hd : (data.map Prod.fst).getD m 0 = 0 :=
        List.getD_eq_default _ _ (by simpa using hnm)
      rw [hd, rowDelta_of_not_mem (by decide) m, List.append_nil]

/-! From position-based deletion to key-based filtering. -/

lemma mem_predUnion_iff {k : Int} :
    k ∈ predUnion
      ↔ (k ∈ predKeys.getD 0 [] ∨ k ∈ predKeys.getD 1 [] ∨ k ∈ predKeys.getD 2 []
          ∨ k ∈ predKeys.getD 3 [] ∨ k ∈ predKeys.getD 4 [] ∨ k ∈ predKeys.getD 5 []
          ∨ k ∈ predKeys.getD 6 []) := by
  simp only [predUnion, predKeys, List.flatten_cons, List.flatten_nil,
    List.mem_append, List.mem_cons, List.not_mem_nil, or_false, List.getD_cons_zero,
    List.getD_cons_succ]

lemma mem_rowDelta {j : Nat} {k : Int} {i : Nat} :
    j ∈ rowDelta k i ↔ (j = i ∧ k ∈ predUnion) := by
  have hsplit : ∀ (c : Prop) [Decidable c],
      (j ∈ (if c then [i] else [])) ↔ (c ∧ j = i) := by
    intro c hc
    split <;> simp_all
  simp only [rowDelta, List.mem_append, hsplit, mem_predUnion_iff]
  tauto

lemma mem_delList {ks : List Int} {m j : Nat} :
    j ∈ delList ks m ↔ (j < m ∧ ks.getD j 0 ∈ predUnion) := by
  induction m with
  | zero => simp [delList]
  | succ m ih =>
    rw [delList_succ, List.mem_append, ih, mem_rowDelta]
    constructor
    · rintro (⟨h1, h2⟩ | ⟨rfl, h2⟩)
      · exact ⟨by omega, h2⟩
      · exact ⟨by omega, h2⟩
    · rintro ⟨h1, h2⟩
      by_cases hj : j = m
      · subst hj
        exact Or.inr ⟨rfl, h2⟩
      · exact Or.inl ⟨by omega, h2⟩

lemma deleteRowsAux_eq_filter (P : Row → Bool) (M : List Row) :
    ∀ (i : Nat) (td : List Nat),
      (∀ k : Nat, k < M.length → ((i + k) ∈ td ↔ P (M.getD k (0, [])) = true)) →
      deleteRowsAux td i M = M.filter (fun r => !(P r)) := by
  induction M with
  | nil =>
    intro i td h
    rfl
  | cons r rs ih =>
    intro i td h
    have h0 : i ∈ td ↔ P r = true := by simpa using h 0 (by simp)
    have hrec : deleteRowsAux td (i + 1) rs = rs.filter (fun r => !(P r)) := by
      apply ih
      intro k hk2
      have := h (k + 1) (by simpa using Nat.succ_lt_succ hk2)
      simpa [Nat.add_assoc, Nat.add_comm 1 k] using this
    unfold deleteRowsAux
    by_cases hp : P r = true
    · rw [if_pos (h0.mpr hp), hrec, List.filter_cons_of_neg (by simp [hp])]
    · rw [if_neg (fun hmem => hp (h0.mp hmem)), hrec,
        List.filter_cons_of_pos (by simp [hp])]

lemma length_filter_not (l : List Row) (P : Row → Bool) :
    (l.filter (fun r => !(P r))).length = l.length - l.countP P := by
  induction l with
  | nil => rfl
  | cons r rs ih =>
    have hle : rs.countP P ≤ rs.length := List.countP_le_length _
    by_cases h : P r = true <;>
      simp [List.filter_cons, List.countP_cons, h, ih] <;> omega

lemma get_new_counties_core (data cur₀ : List Row) (h7 : cur₀.length = 7)
    (hk : cur₀.map Prod.fst = newCountyKeys) :
    sortByKey (deleteRows (fuseAll (data ++ cur₀)).1 (fuseAll (data ++ cur₀)).2)
      = sortByKey ((data ++ fuseData data cur₀).filter
          (fun r => !(decide (r.1 ∈ predUnion)))) := by
  have hall : fuseAll (data ++ cur₀)
      = (data ++ fuseData data cur₀, delList (data.map Prod.fst) (data.length + 7)) := by
    unfold fuseAll
    have hlen : (data ++ cur₀).length = data.length + 7 := by simp [h7]
    rw [hlen, fuseLoop_invariant data cur₀ h7 hk, List.take_of_length_le (by omega)]
  rw [hall]
  congr 1
  apply deleteRowsAux_eq_filter (fun r => decide (r.1 ∈ predUnion))
  intro k hk2
  rw [Nat.zero_add, mem_delList]
  have hlen2 : (data ++ fuseData data cur₀).length = data.length + 7 := by
    simp [fuseData_length, h7]
  rw [hlen2] at hk2
  by_cases hkn : k < data.length
  · have e1 : (data.map Prod.fst).getD k 0 = (data.getD k (0, [])).1 := by
      have h2 := List.getD_map data ((0 : Int), ([] : List Int)) Prod.fst (n := k)
      simpa using h2
    have e2 : (data ++ fuseData data cur₀).getD k (0, []) = data.getD k (0, []) :=
      List.getD_append _ _ _ _ hkn
    rw [e1, e2]
    simp only [decide_eq_true_eq]
    constructor
    · exact fun h => h.2
    · intro h
      exact ⟨by omega, h⟩
  · have hge : data.length ≤ k := by omega
    have e1 : (data.map Prod.fst).getD k 0 = 0 :=
      List.getD_eq_default _ _ (by simpa using hge)
    have e2 : ((data ++ fuseData data cur₀).getD k (0, [])).1
        = newCountyKeys.getD (k - data.length) 0 := by
      rw [List.getD_append_right _ _ _ _ hge]
      have h2 := List.getD_map (fuseData data cur₀) ((0 : Int), ([] : List Int)) Prod.fst
        (n := k - data.length)
      simp only at h2
      rw [← h2, fuseData_map_fst, hk]
    rw [e1, e2]
    simp only [decide_eq_true_eq]
    constructor
    · rintro ⟨h1, h2⟩
      exact absurd h2 (by decide)
    · intro h2
      exact absurd h2 (newCountyKeys_getD_not_mem_predUnion _)

/-- Structural description of `get_new_counties`: the result is the input
rows without the predecessor-key rows, together with the 7 accumulated
successor rows, re-sorted by key. -/
lemma get_new_counties_eq (data : List Row) :
    get_new_counties data
      = sortByKey ((data
            ++ fuseData data (newCountyKeys.map (fun k => (k, List.replicate (valsWidth data) 0)))).filter
          (fun r => !(decide (r.1 ∈ predUnion)))) := by
  have h7 : (newCountyKeys.map (fun k => (k, List.replicate (valsWidth data) 0))).length = 7 := by
    simp [newCountyKeys]
  have hk : (newCountyKeys.map (fun k => (k, List.replicate (valsWidth data) 0))).map Prod.fst
      = newCountyKeys := by
    rfl
  exact get_new_counties_core data _ h7 hk

lemma newCountyKeys_disjoint_predUnion : ∀ x ∈ newCountyKeys, x ∉ predUnion := by
  decide

lemma filter_map_fst (data : List Row) :
    (data.filter (fun r => !(decide (r.1 ∈ predUnion)))).map Prod.fst
      = (data.map Prod.fst).filter (fun k => !(decide (k ∈ predUnion))) := by
  rw [List.filter_map]
  rfl

/-- Claim C1: on an input matrix whose keys are pairwise distinct and avoid
the 7 successor keys, `get_new_counties` returns exactly
`input rows - predecessor rows + 7` rows, with the key column sorted
ascending and free of duplicates. -/
theorem claim_C1 (data : List Row)
    (hnd : (data.map Prod.fst).Nodup)
    (hns : ∀ r ∈ data, r.1 ∉ newCountyKeys) :
    (get_new_counties data).length
        = data.length - data.countP (fun r => decide (r.1 ∈ predUnion)) + 7
    ∧ List.Sorted (· ≤ ·) ((get_new_counties data).map Prod.fst)
    ∧ ((get_new_counties data).map Prod.fst).Nodup := by
  rw [get_new_counties_eq data]
  have hFNkeys : (fuseData data
        (newCountyKeys.map (fun k => (k, List.replicate (valsWidth data) 0)))).map Prod.fst
      = newCountyKeys := by
    rw [fuseData_map_fst]
    rfl
  have hFNlen : (fuseData data
        (newCountyKeys.map (fun k => (k, List.replicate (valsWidth data) 0)))).length = 7 := by
    rw [fuseData_length]
    simp [newCountyKeys]
  set FN : List Row := fuseData data
    (newCountyKeys.map (fun k => (k, List.replicate (valsWidth data) 0)))
  have hFNfilter : FN.filter (fun r => !(decide (r.1 ∈ predUnion))) = FN := by
    apply List.filter_eq_self.mpr
    intro r hr
    have hmem : r.1 ∈ newCountyKeys := by
      rw [← hFNkeys]
      exact List.mem_map_of_mem _ hr
    simp only [Bool.not_eq_true', decide_eq_false_iff_not]
    exact newCountyKeys_disjoint_predUnion _ hmem
  refine ⟨?_, ?_, ?_⟩
  · show (List.mergeSort _ _).length = _
    rw [List.length_mergeSort, List.filter_append, List.length_append, hFNfilter,
      hFNlen, length_filter_not]
  · have hs : (List.mergeSort
          ((data ++ FN).filter (fun r => !(decide (r.1 ∈ predUnion))))
          (fun a b : Row => decide (a.1 ≤ b.1))).Pairwise
        (fun a b : Row => decide (a.1 ≤ b.1) = true) := by
      apply List.sorted_mergeSort
      · intro a b c hab hbc
        simp only [decide_eq_true_eq] at hab hbc ⊢
        omega
      · intro a b
        rcases le_total a.1 b.1 with h | h <;> simp [h]
    apply List.pairwise_map.mpr
    exact hs.imp (fun h => by simpa using h)
  · have hperm := (List.mergeSort_perm
      ((data ++ FN).filter (fun r => !(decide (r.1 ∈ predUnion))))
      (fun a b : Row => decide (a.1 ≤ b.1))).map Prod.fst
    unfold sortByKey
    rw [hperm.nodup_iff]
    rw [List.filter_append, hFNfilter, List.map_append, filter_map_fst, hFNkeys]
    apply List.nodup_append.mpr
    refine ⟨hnd.filter _, by decide, ?_⟩
    intro a ha hmem
    have ha2 : a ∈ data.map Prod.fst := List.mem_of_mem_filter ha
    obtain ⟨r, hr, rfl⟩ := List.mem_map.mp ha2
    exact hns r hr hmem

/-- Witness for C1 at a concrete two-row input (one ordinary county, one
Göttingen predecessor). -/
theorem claim_C1_witness :
    (([(1, [2]), (3152, [5])] : List Row).map Prod.fst).Nodup
    ∧ (∀ r ∈ ([(1, [2]), (3152, [5])] : List Row), r.1 ∉ newCountyKeys)
    ∧ ((get_new_counties [(1, [2]), (3152, [5])]).length
          = ([(1, [2]), (3152, [5])] : List Row).length
              - ([(1, [2]), (3152, [5])] : List Row).countP
                  (fun r => decide (r.1 ∈ predUnion)) + 7
        ∧ List.Sorted (· ≤ ·) ((get_new_counties [(1, [2]), (3152, [5])]).map Prod.fst)
        ∧ ((get_new_counties [(1, [2]), (3152, [5])]).map Prod.fst).Nodup) :=
  ⟨by decide, by decide, claim_C1 [(1, [2]), (3152, [5])] (by decide) (by decide)⟩

/-! Value of the Göttingen row produced by the fuse loop. -/

lemma accumVals_cons (preds : List Int) (z : List Int) (r : Row) (l : List Row) :
    accumVals preds z (r :: l)
      = accumVals preds (if r.1 ∈ preds then List.zipWith (· + ·) z r.2 else z) l := rfl

lemma accumRow_getD_zero (cur : List Row) (r : Row) (h7 : cur.length = 7) :
    (accumRow cur r).getD 0 (0, [])
      = ((cur.getD 0 (0, [])).1,
         if r.1 ∈ predKeys.getD 0 [] then
           List.zipWith (· + ·) (cur.getD 0 (0, [])).2 r.2
         else (cur.getD 0 (0, [])).2) := by
  have hne : ∀ g : Nat, g ≠ 0 → ∀ c : List Row,
      (accumGroup g c r).getD 0 (0, []) = c.getD 0 (0, []) := by
    intro g hg c
    unfold accumGroup
    split
    · exact getD_set_of_ne _ _ _ _ _ hg
    · rfl
  unfold accumRow
  rw [hne 6 (by omega), hne 5 (by omega), hne 4 (by omega), hne 3 (by omega),
    hne 2 (by omega), hne 1 (by omega)]
  unfold accumGroup
  split
  · exact getD_set_self _ _ _ _ (by omega)
  · exact Prod.mk.eta.symm

lemma fuseData_getD_zero (l : List Row) :
    ∀ cur : List Row, cur.length = 7 →
      (fuseData l cur).getD 0 (0, [])
        = ((cur.getD 0 (0, [])).1,
           accumVals (predKeys.getD 0 []) (cur.getD 0 (0, [])).2 l) := by
  induction l with
  | nil =>
    intro cur h7
    exact Prod.mk.eta.symm
  | cons r l ih =>
    intro cur h7
    show (fuseData l (accumRow cur r)).getD 0 (0, []) = _
    rw [ih (accumRow cur r) (by rw [accumRow_length]; exact h7),
      accumRow_getD_zero cur r h7, accumVals_cons]

lemma accumVals_eq_filter (preds : List Int) (z : List Int) (l : List Row) :
    accumVals preds z l
      = (l.filter (fun r => decide (r.1 ∈ preds))).foldl
          (fun acc r => List.zipWith (· + ·) acc r.2) z := by
  induction l generalizing z with
  | nil => rfl
  | cons r l ih =>
    by_cases h : r.1 ∈ preds
    · rw [accumVals_cons, if_pos h, List.filter_cons_of_pos (by simpa), List.foldl_cons, ih]
    · rw [accumVals_cons, if_neg h, List.filter_cons_of_neg (by simpa), ih]

/-! Combining two singleton filters into a two-element filter. -/

lemma filter_or_nil {α : Type} (p q : α → Bool) (l : List α)
    (hp : l.filter p = []) (hq : l.filter q = []) :
    l.filter (fun x => p x || q x) = [] := by
  induction l with
  | nil => rfl
  | cons a l ih =>
    by_cases hpa : p a = true
    · rw [List.filter_cons_of_pos hpa] at hp
      exact absurd hp (by simp)
    · rw [List.filter_cons_of_neg hpa] at hp
      by_cases hqa : q a = true
      · rw [List.filter_cons_of_pos hqa] at hq
        exact absurd hq (by simp)
      · rw [List.filter_cons_of_neg hqa] at hq
        rw [List.filter_cons_of_neg (by simp [hpa, hqa])]
        exact ih hp hq

lemma filter_or_single_right {α : Type} (p q : α → Bool) (l : List α) (b : α)
    (hp : l.filter p = []) (hq : l.filter q = [b]) :
    l.filter (fun x => p x || q x) = [b] := by
  induction l with
  | nil => exact absurd hq (by simp)
  | cons a l ih =>
    by_cases hpa : p a = true
    · rw [List.filter_cons_of_pos hpa] at hp
      exact absurd hp (by simp)
    · rw [List.filter_cons_of_neg hpa] at hp
      by_cases hqa : q a = true
      · rw [List.filter_cons_of_pos hqa] at hq
        injection hq with h1 h2
        subst h1
        rw [List.filter_cons_of_pos (by simp [hqa])]
        rw [filter_or_nil p q l hp h2]
      · rw [List.filter_cons_of_neg hqa] at hq
        rw [List.filter_cons_of_neg (by simp [hpa, hqa])]
        exact ih hp hq

lemma filter_or_single_left {α : Type} (p q : α → Bool) (l : List α) (a : α)
    (hp : l.filter p = [a]) (hq : l.filter q = []) :
    l.filter (fun x => p x || q x) = [a] := by
  have h := filter_or_single_right q p l a hq hp
  rw [← h]
  apply List.filter_congr
  intro x _
  exact Bool.or_comm _ _

lemma filter_or_of_singles {α : Type} (p q : α → Bool) (l : List α) (a b : α)
    (hp : l.filter p = [a]) (hq : l.filter q = [b])
    (hdisj : ∀ x : α, ¬(p x = true ∧ q x = true)) :
    l.filter (fun x => p x || q x) = [a, b]
    ∨ l.filter (fun x => p x || q x) = [b, a] := by
  induction l with
  | nil => exact absurd hp (by simp)
  | cons c l ih =>
    by_cases hpa : p c = true
    · rw [List.filter_cons_of_pos hpa] at hp
      injection hp with h1 h2
      subst h1
      have hqa : ¬ q c = true := fun hqc => hdisj c ⟨hpa, hqc⟩
      rw [List.filter_cons_of_neg hqa] at hq
      rw [List.filter_cons_of_pos (by simp [hpa])]
      left
      rw [filter_or_single_right p q l b h2 hq]
    · rw [List.filter_cons_of_neg hpa] at hp
      by_cases hqa : q c = true
      · rw [List.filter_cons_of_pos hqa] at hq
        injection hq with h1 h2
        subst h1
        rw [List.filter_cons_of_pos (by simp [hqa])]
        right
        rw [filter_or_single_left p q l a hp h2]
      · rw [List.filter_cons_of_neg hqa] at hq
        rw [List.filter_cons_of_neg (by simp [hpa, hqa])]
        exact ih hp hq

/-- Claim C2: on an input containing exactly one row `(3152, [10, 20])` and
one row `(3156, [5, 8])` among the Göttingen predecessor/successor keys (and
uniform row width 2), `get_new_counties` produces exactly one row with key
3159, carrying the bracket sums `[15, 28]`, and no rows with keys 3152 or
3156. -/
theorem claim_C2 (data : List Row)
    (h52 : data.filter (fun r => decide (r.1 = 3152)) = [((3152 : Int), [10, 20])])
    (h56 : data.filter (fun r => decide (r.1 = 3156)) = [((3156 : Int), [5, 8])])
    (h59 : data.filter (fun r => decide (r.1 = 3159)) = [])
    (hw : ∀ r ∈ data, r.2.length = 2) :
    (get_new_counties data).filter (fun r => decide (r.1 = 3159))
        = [((3159 : Int), [15, 28])]
    ∧ (get_new_counties data).filter (fun r => decide (r.1 = 3152)) = []
    ∧ (get_new_counties data).filter (fun r => decide (r.1 = 3156)) = [] := by
  have hwid : valsWidth data = 2 := by
    cases data with
    | nil => simp at h52
    | cons r l =>
      show r.2.length = 2
      exact hw r (by simp)
  rw [get_new_counties_eq data]
  set cur₀ : List Row := newCountyKeys.map (fun k => (k, List.replicate (valsWidth data) 0))
    with hcur
  have hcur0len : cur₀.length = 7 := by
    rw [hcur]
    simp [newCountyKeys]
  have hFN0 : (fuseData data cur₀).getD 0 (0, []) = ((3159 : Int), [15, 28]) := by
    rw [fuseData_getD_zero data cur₀ hcur0len]
    have hc0 : cur₀.getD 0 (0, []) = ((3159 : Int), [0, 0]) := by
      rw [hcur, hwid]
      rfl
    rw [hc0]
    show ((3159 : Int), accumVals (predKeys.getD 0 []) [0, 0] data) = _
    rw [accumVals_eq_filter]
    have hfc : data.filter (fun r => decide (r.1 ∈ predKeys.getD 0 []))
        = data.filter (fun x => decide (x.1 = 3152) || decide (x.1 = 3156)) := by
      apply List.filter_congr
      intro x _
      by_cases h1 : x.1 = 3152 <;> by_cases h2 : x.1 = 3156 <;>
        simp [predKeys, h1, h2]
    rw [hfc]
    have hdisj : ∀ x : Row,
        ¬((fun r : Row => decide (r.1 = 3152)) x = true
          ∧ (fun r : Row => decide (r.1 = 3156)) x = true) := by
      intro x hx
      obtain ⟨u, v⟩ := hx
      simp only [decide_eq_true_eq] at u v
      rw [u] at v
      exact absurd v (by decide)
    rcases filter_or_of_singles _ _ data _ _ h52 h56 hdisj with h | h <;> rw [h] <;> rfl
  have hlenFN : (fuseData data cur₀).length = 7 := by
    rw [fuseData_length]
    exact hcur0len
  obtain ⟨a, t, hFN⟩ : ∃ a t, fuseData data cur₀ = a :: t := by
    cases hF : fuseData data cur₀ with
    | nil =>
      rw [hF] at hlenFN
      simp at hlenFN
    | cons a t => exact ⟨a, t, rfl⟩
  have ha : a = ((3159 : Int), [15, 28]) := by
    rw [hFN] at hFN0
    simpa using hFN0
  have htkeys : t.map Prod.fst
      = [(13071 : Int), 13072, 13073, 13074, 13075, 13076] := by
    have hkeys : (fuseData data cur₀).map Prod.fst = newCountyKeys := by
      rw [fuseData_map_fst, hcur]
      rfl
    rw [hFN, List.map_cons] at hkeys
    have h2 := congrArg List.tail hkeys
    simpa [newCountyKeys] using h2
  have hperm : ∀ p : Row → Bool,
      List.Perm
        ((sortByKey ((data ++ fuseData data cur₀).filter
            (fun r => !(decide (r.1 ∈ predUnion))))).filter p)
        (((data ++ fuseData data cur₀).filter
            (fun r => !(decide (r.1 ∈ predUnion)))).filter p) :=
    fun p => (List.mergeSort_perm _ _).filter p
  refine ⟨?_, ?_, ?_⟩
  · have hkept : ((data ++ fuseData data cur₀).filter
          (fun r => !(decide (r.1 ∈ predUnion)))).filter (fun r => decide (r.1 = 3159))
        = [((3159 : Int), [15, 28])] := by
      rw [List.filter_filter, List.filter_append]
      have hdata : data.filter
          (fun a => decide (a.1 = 3159) && !(decide (a.1 ∈ predUnion))) = [] := by
        apply List.filter_eq_nil_iff.mpr
        intro r hr hcontra
        simp only [Bool.and_eq_true] at hcontra
        exact (List.filter_eq_nil_iff.mp h59 r hr) hcontra.1
      have ht : t.filter
          (fun aa => decide (aa.1 = 3159) && !(decide (aa.1 ∈ predUnion))) = [] := by
        apply List.filter_eq_nil_iff.mpr
        intro r hr hcontra
        simp only [Bool.and_eq_true, decide_eq_true_eq] at hcontra
        have hmemk : r.1 ∈ t.map Prod.fst := List.mem_map_of_mem _ hr
        rw [htkeys, hcontra.1] at hmemk
        exact absurd hmemk (by decide)
      rw [hdata, hFN, List.filter_cons_of_pos (by rw [ha]; decide), ht, ha]
      rfl
    have hp := hperm (fun r => decide (r.1 = 3159))
    rw [hkept] at hp
    exact List.perm_singleton.mp hp
  · have hkept : ((data ++ fuseData data cur₀).filter
          (fun r => !(decide (r.1 ∈ predUnion)))).filter (fun r => decide (r.1 = 3152))
        = [] := by
      rw [List.filter_filter]
      apply List.filter_eq_nil_iff.mpr
      intro r _ hcontra
      simp only [Bool.and_eq_true, decide_eq_true_eq, Bool.not_eq_true',
        decide_eq_false_iff_not] at hcontra
      apply hcontra.2
      rw [hcontra.1]
      decide
    have hp := hperm (fun r => decide (r.1 = 3152))
    rw [hkept] at hp
    exact List.perm_nil.mp hp
  · have hkept : ((data ++ fuseData data cur₀).filter
          (fun r => !(decide (r.1 ∈ predUnion)))).filter (fun r => decide (r.1 = 3156))
        = [] := by
      rw [List.filter_filter]
      apply List.filter_eq_nil_iff.mpr
      intro r _ hcontra
      simp only [Bool.and_eq_true, decide_eq_true_eq, Bool.not_eq_true',
        decide_eq_false_iff_not] at hcontra
      apply hcontra.2
      rw [hcontra.1]
      decide
    have hp := hperm (fun r => decide (r.1 = 3156))
    rw [hkept] at hp
    exact List.perm_nil.mp hp

/-- Witness for C2 at the two-row input of the spec's end-to-end scenario. -/
theorem claim_C2_witness :
    (([((3152 : Int), [10, 20]), ((3156 : Int), [5, 8])] : List Row).filter
        (fun r => decide (r.1 = 3152)) = [((3152 : Int), [10, 20])])
    ∧ (([((3152 : Int), [10, 20]), ((3156 : Int), [5, 8])] : List Row).filter
        (fun r => decide (r.1 = 3156)) = [((3156 : Int), [5, 8])])
    ∧ (([((3152 : Int), [10, 20]), ((3156 : Int), [5, 8])] : List Row).filter
        (fun r => decide (r.1 = 3159)) = [])
    ∧ ((get_new_counties [((3152 : Int), [10, 20]), ((3156 : Int), [5, 8])]).filter
          (fun r => decide (r.1 = 3159)) = [((3159 : Int), [15, 28])]
        ∧ (get_new_counties [((3152 : Int), [10, 20]), ((3156 : Int), [5, 8])]).filter
            (fun r => decide (r.1 = 3152)) = []
        ∧ (get_new_counties [((3152 : Int), [10, 20]), ((3156 : Int), [5, 8])]).filter
            (fun r => decide (r.1 = 3156)) = []) :=
  ⟨by decide, by decide, by decide,
    claim_C2 [((3152 : Int), [10, 20]), ((3156 : Int), [5, 8])]
      (by decide) (by decide) (by decide) (by decide)⟩

/-! Embedding of the rescaling step of `get_age_population_data`
(`getPopulationData.py`).  The reference table `counties` is embedded as a
list of (optional region key, current population) pairs: a `none` key stands
for a row where `counties['Schlüssel-nummer'].isnull()` holds.  Population
figures and ratios are embedded as rationals. -/

/-- Embedding of `np.round`: round half to even, as numpy does. -/
def npround (q : ℚ) : ℤ :=
  let f := ⌊q⌋
  let r := q - (f : ℚ)
  if r < 1 / 2 then f
  else if 1 / 2 < r then f + 1
  else if f % 2 = 0 then f else f + 1

/-- The reference rows actually visited by the ratio loop
(`for j in range(len(counties)-11)`): all but the last 11 rows. -/
def consideredCounties (counties : List (Option Int × ℚ)) : List (Option Int × ℚ) :=
  counties.take (counties.length - 11)

/-- Embedding of the ratio loop of `get_age_population_data`: the ratio
starts at 1 and each non-null reference row whose key equals the region key
overwrites it with `current population / census total` (last match wins). -/
def ratioFor (counties : List (Option Int × ℚ)) (key : Int) (total : ℚ) : ℚ :=
  (consideredCounties counties).foldl
    (fun r c =>
      match c.1 with
      | some k => if key = k then c.2 / total else r
      | none => r) 1

/-- Rescaling of one county row: the key column is copied, every other
column is multiplied by the region's ratio and rounded
(`np.round(data_current).astype(int)`). -/
def rescaleRow (counties : List (Option Int × ℚ)) (row : Row) : Row :=
  (row.1,
   row.2.map (fun v : Int =>
     npround ((v : ℚ) * ratioFor counties row.1 ((row.2.headD 0 : Int) : ℚ))))

/-- The rescaled table `df_current` built by `get_age_population_data` from
the reconciled matrix `data` and the reference table `counties`. -/
def rescaleData (counties : List (Option Int × ℚ)) (data : List Row) : List Row :=
  data.map (rescaleRow counties)

lemma npround_intCast (n : Int) : npround ((n : ℚ)) = n := by
  unfold npround
  rw [Int.floor_intCast]
  norm_num

lemma ratioFor_of_no_match (counties : List (Option Int × ℚ)) (key : Int) (total : ℚ)
    (h : ∀ c ∈ consideredCounties counties, ∀ k : Int, c.1 = some k → k ≠ key) :
    ratioFor counties key total = 1 := by
  unfold ratioFor
  have hgen : ∀ (l : List (Option Int × ℚ)),
      (∀ c ∈ l, ∀ k : Int, c.1 = some k → k ≠ key) → ∀ r₀ : ℚ,
      l.foldl
        (fun r c =>
          match c.1 with
          | some k => if key = k then c.2 / total else r
          | none => r) r₀ = r₀ := by
    intro l
    induction l with
    | nil => intro _ r₀; rfl
    | cons c l ih =>
      intro hl r₀
      rw [List.foldl_cons]
      rcases hc : c.1 with _ | k
      · exact ih (fun c' hc' => hl c' (by simp [hc'])) r₀
      · have hne : key ≠ k := fun he => hl c (by simp) k hc he.symm
        simp only [hc]
        rw [if_neg hne]
        exact ih (fun c' hc' => hl c' (by simp [hc'])) r₀
  exact hgen _ h 1

/-- Claim C3: in the rescaling step, the value written for region row `row`
and bracket column `j` is `round(v * r)` for the raw value `v` and the
region's ratio `r`; and a region with no matching reference row keeps ratio
1, so its values are written back unchanged. -/
theorem claim_C3 (counties : List (Option Int × ℚ)) (data : List Row)
    (i j : Nat) (row : Row) (hi : i < data.length)
    (hrow : data.getD i (0, []) = row) (hj : j < row.2.length) :
    ((rescaleData counties data).getD i (0, [])).2.getD j 0
        = npround (((row.2.getD j 0 : Int) : ℚ)
            * ratioFor counties row.1 ((row.2.headD 0 : Int) : ℚ))
    ∧ ((∀ c ∈ consideredCounties counties, ∀ k : Int, c.1 = some k → k ≠ row.1) →
        ratioFor counties row.1 ((row.2.headD 0 : Int) : ℚ) = 1
        ∧ ((rescaleData counties data).getD i (0, [])).2.getD j 0 = row.2.getD j 0) := by
  have hmap : (rescaleData counties data).getD i (0, []) = rescaleRow counties row := by
    unfold rescaleData
    have hd : ((0 : Int), ([] : List Int)) = rescaleRow counties (0, []) := rfl
    rw [hd, List.getD_map, hrow]
  have hval : ((rescaleData counties data).getD i (0, [])).2.getD j 0
      = npround (((row.2.getD j 0 : Int) : ℚ)
          * ratioFor counties row.1 ((row.2.headD 0 : Int) : ℚ)) := by
    rw [hmap]
    show (row.2.map (fun v : Int =>
        npround ((v : ℚ) * ratioFor counties row.1 ((row.2.headD 0 : Int) : ℚ)))).getD j 0 = _
    rw [List.getD_eq_getElem (row.2.map (fun v : Int =>
          npround ((v : ℚ) * ratioFor counties row.1 ((row.2.headD 0 : Int) : ℚ)))) 0
        (by simpa using hj),
      List.getD_eq_getElem row.2 0 hj]
    simp only [List.getElem_map]
  refine ⟨hval, ?_⟩
  intro hnm
  have hr1 : ratioFor counties row.1 ((row.2.headD 0 : Int) : ℚ) = 1 :=
    ratioFor_of_no_match counties row.1 _ hnm
  refine ⟨hr1, ?_⟩
  rw [hval, hr1, mul_one, npround_intCast]

/-- Witness for C3 at a one-row matrix and a one-row (unmatched) reference
table. -/
theorem claim_C3_witness :
    (0 < ([((1 : Int), [10, 3])] : List Row).length)
    ∧ (([((1 : Int), [10, 3])] : List Row).getD 0 (0, []) = ((1 : Int), [10, 3]))
    ∧ (1 < ([(10 : Int), 3].length))
    ∧ (((rescaleData [(some 5, (7 : ℚ))] [((1 : Int), [10, 3])]).getD 0 (0, [])).2.getD 1 0
          = npround ((((([(10 : Int), 3] : List Int).getD 1 0 : Int) : ℚ))
              * ratioFor [(some 5, (7 : ℚ))] 1 ((([(10 : Int), 3] : List Int).headD 0 : Int) : ℚ))
        ∧ ((∀ c ∈ consideredCounties [(some 5, (7 : ℚ))], ∀ k : Int,
              c.1 = some k → k ≠ (1 : Int)) →
            ratioFor [(some 5, (7 : ℚ))] 1 ((([(10 : Int), 3] : List Int).headD 0 : Int) : ℚ) = 1
            ∧ ((rescaleData [(some 5, (7 : ℚ))] [((1 : Int), [10, 3])]).getD 0 (0, [])).2.getD 1 0
                = ([(10 : Int), 3] : List Int).getD 1 0)) :=
  ⟨by decide, by decide, by decide,
    claim_C3 [(some 5, (7 : ℚ))] [((1 : Int), [10, 3])] 0 1 ((1 : Int), [10, 3])
      (by decide) (by decide) (by decide)⟩

/-! Embedding of `download_file` and `loadCsv` of
`getDataIntoPandasDataFrame.py`.  Python's dynamic typing is embedded with
`PyVal`; exceptions with `PyExc` and `Except`.  The HTTP world is an
explicit input: `Option HttpResponse` is the outcome of `requests.get`
(`none` is a connection error, an instance of `RequestException`), and the
two `pd.read_csv` calls are oracles passed as `Except` values. -/

/-- A dynamically typed Python value (the ones these call sites produce). -/
inductive PyVal where
  | none
  | int (n : Int)
  | str (s : String)
  | bool (b : Bool)
  deriving DecidableEq

/-- The Python exception classes distinguished by the embedded code.
`requests.exceptions.HTTPError` is a subclass of `RequestException` and is
embedded as `requestException`. -/
inductive PyExc where
  | typeError
  | requestException
  | osError
  | fileNotFound (msg : String)
  | attributeError
  deriving DecidableEq

/-- A successful `requests.get` response: HTTP status, the optional
`content-length` header, and the byte lengths of the chunks that
`iter_content` yields. -/
structure HttpResponse where
  status : Int
  contentLength : Option Int
  chunks : List Nat
  deriving DecidableEq

/-- Truthiness of a `PyVal`, as in `if encoding:`. -/
def pyTruthy : PyVal → Bool
  | PyVal.none => false
  | PyVal.int n => decide (n ≠ 0)
  | PyVal.str s => decide (s ≠ "")
  | PyVal.bool b => b

/-- One iteration of the progress loop of `download_file`:
`progress = min(progress + chunk_size, file_size)` followed by
`progress_function(progress / file_size)`.  Note that the loop adds the
`chunk_size` parameter, not `len(chunk)`. -/
def progressStep (cs fs : Int) (st : Int × List ℚ) : Int × List ℚ :=
  let p := min (st.1 + cs) fs
  (p, st.2 ++ [(p : ℚ) / (fs : ℚ)])

/-- The sequence of values passed to `progress_function` by the progress
loop of `download_file`, for an integer `chunk_size` (the chunk contents are
irrelevant to the progress arithmetic, only the number of chunks matters). -/
def progressValues (cs fs : Int) (chunks : List Nat) : List ℚ :=
  (chunks.foldl (fun st _chunk => progressStep cs fs st) (0, [])).2

/-- Embedding of `download_file(url, encoding, chunk_size, timeout,
progress_function)`.  Returns the list of progress fractions reported; the
downloaded payload itself is not modelled.  `TypeError`s arise exactly where
the dynamic typing of the Python code raises them:
`int(None)` when the `content-length` header is missing,
`progress + chunk_size` when `chunk_size` is `None` (with at least one
chunk), `iter_content` when `chunk_size` is a `str`, and
`str(file, encoding=...)` when `encoding` is truthy but not a `str`. -/
def download_file (fetch : Option HttpResponse) (encoding chunk_size : PyVal)
    (hasProgress : Bool) : Except PyExc (List ℚ) :=
  match fetch with
  | Option.none => Except.error PyExc.requestException
  | some resp =>
    if resp.status = 200 then
      match resp.contentLength with
      | some fs =>
        match (if hasProgress then
                match chunk_size with
                | PyVal.int cs => Except.ok (progressValues cs fs resp.chunks)
                | PyVal.none =>
                  if resp.chunks.isEmpty then Except.ok []
                  else Except.error PyExc.typeError
                | _ => Except.error PyExc.typeError
              else Except.ok []) with
        | Except.error e => Except.error e
        | Except.ok ps =>
          if pyTruthy encoding then
            match encoding with
            | PyVal.str _ => Except.ok ps
            | _ => Except.error PyExc.typeError
          else Except.ok ps
      | Option.none => Except.error PyExc.typeError
    else Except.error PyExc.requestException

/-- Embedding of `loadCsv`.  The crucial call is
`download_file(url, 1024, param_dict["encoding"], None, p.set_progress)`:
`1024` is passed in the position of `encoding` and the configured encoding
in the position of `chunk_size`.  `encodingVal` is the value of
`param_dict["encoding"]` after the defaults were filled in; `parseFile` and
`parseUrl` are the outcomes of `pd.read_csv(file, ...)` and
`pd.read_csv(url, ...)`. -/
def loadCsv (targetFileName apiUrl extension : String)
    (fetch : Option HttpResponse) (encodingVal : PyVal)
    (parseFile parseUrl : Except PyExc Nat) : Except PyExc Nat :=
  let url := apiUrl ++ targetFileName ++ extension
  let attempt : Except PyExc Nat :=
    match download_file fetch (PyVal.int 1024) encodingVal true with
    | Except.error e => Except.error e
    | Except.ok _ => parseFile
  let inner : Except PyExc Nat :=
    match attempt with
    | Except.error PyExc.requestException => parseUrl
    | other => other
  match inner with
  | Except.error PyExc.osError =>
    Except.error (PyExc.fileNotFound ("ERROR: URL " ++ url ++ " could not be opened."))
  | other => other

/-- Claim C4 (evaluation at its failing input): for a perfectly healthy
fetch (status 200, content-length 4, one 4-byte chunk) and a parser that
would succeed, `loadCsv` raises `TypeError` instead of returning the parsed
dataframe, because `loadCsv` passes `1024` as the `encoding` argument and
the encoding as `chunk_size`; the `TypeError` is neither a
`RequestException` (so no fallback happens) nor an `OSError` (so no
`FileNotFoundError` is raised). -/
theorem claim_C4 :
    loadCsv "4414" "https://opendata.arcgis.com/datasets/" ".csv"
      (some { status := 200, contentLength := some 4, chunks := [4] })
      PyVal.none (Except.ok 1) (Except.ok 2)
      = Except.error PyExc.typeError := rfl

/-! Closed form of the progress sequence. -/

lemma min_add_min (a c f : Int) (hc : 0 ≤ c) :
    min (min a f + c) f = min (a + c) f := by
  rcases le_total a f with h | h
  · rw [min_eq_left h]
  · rw [min_eq_right h, min_eq_right (by omega), min_eq_right (by omega)]

lemma progressStep_eq (cs fs : Int) (st : Int × List ℚ) :
    progressStep cs fs st
      = (min (st.1 + cs) fs, st.2 ++ [((min (st.1 + cs) fs : Int) : ℚ) / (fs : ℚ)]) := rfl

lemma progress_foldl_closed (cs fs : Int) (hcs : 0 ≤ cs) (hfs : 0 < fs)
    (chunks : List Nat) :
    chunks.foldl (fun st _chunk => progressStep cs fs st) (0, ([] : List ℚ))
      = (min ((chunks.length : Int) * cs) fs,
         (List.range chunks.length).map
           (fun k : Nat => ((min (((k : Int) + 1) * cs) fs : Int) : ℚ) / (fs : ℚ))) := by
  induction chunks using List.reverseRecOn with
  | nil =>
    simp [min_eq_left hfs.le]
  | append_singleton l c ih =>
    rw [List.foldl_append, ih, List.foldl_cons, List.foldl_nil, progressStep_eq]
    have h1 : min (min ((l.length : Int) * cs) fs + cs) fs
        = min (((l.length : Int) + 1) * cs) fs := by
      rw [min_add_min _ _ _ hcs]
      congr 1
      ring
    rw [h1]
    have h3 : (l ++ [c]).length = l.length + 1 := by
      simp
    rw [h3, List.range_succ, List.map_append]
    push_cast
    rfl

/-- Modelled from the spec's words for comparison with the code: "the value
passed after each chunk equals `min(bytes_read, content_length) /
content_length` where `bytes_read` is the total number of bytes read so
far".  Accumulates the actual chunk lengths instead of the nominal
`chunk_size`. -/
def bytesReadValues (fs : Int) (chunks : List Nat) : List ℚ :=
  (chunks.foldl
    (fun (st : Int × List ℚ) c =>
      let b := st.1 + (c : Int)
      (b, st.2 ++ [((min b fs : Int) : ℚ) / (fs : ℚ)]))
    (0, [])).2

lemma progressValues_closed (cs fs : Int) (hcs : 0 ≤ cs) (hfs : 0 < fs)
    (chunks : List Nat) :
    progressValues cs fs chunks
      = (List.range chunks.length).map
          (fun k : Nat => ((min (((k : Int) + 1) * cs) fs : Int) : ℚ) / (fs : ℚ)) := by
  unfold progressValues
  rw [progress_foldl_closed cs fs hcs hfs]

/-- Counterexample for C5: with `chunk_size = 4`, `content_length = 8` and
two chunks of 2 bytes each, the progress loop reports `[1/2, 1]` while the
claim's bytes-read formula gives `[1/4, 1/2]` — the code accumulates the
nominal `chunk_size`, not the bytes actually read. -/
theorem claim_C5_counterexample :
    progressValues 4 8 [2, 2] ≠ bytesReadValues 8 [2, 2] := by
  have h1 : progressValues 4 8 [2, 2] = [(1 : ℚ)/2, 1] := by
    norm_num [progressValues, progressStep]
  have h2 : bytesReadValues 8 [2, 2] = [(1 : ℚ)/4, 1/2] := by
    norm_num [bytesReadValues]
  rw [h1, h2]
  intro h
  have h3 := congrArg (fun l : List ℚ => l.getD 0 0) h
  norm_num at h3

/-- Claim C5 (amended): for a nonnegative `chunk_size` and a positive
content length, every reported progress value lies in `[0, 1]`, the
sequence is monotonically non-decreasing, and the value passed after the
`k`-th chunk equals `min((k+1) * chunk_size, content_length) /
content_length` — i.e. the byte count in the claim's formula is the
accumulated nominal `chunk_size`, not the number of bytes actually read. -/
theorem claim_C5_amended (cs fs : Int) (chunks : List Nat)
    (hcs : 0 ≤ cs) (hfs : 0 < fs) :
    (∀ v ∈ progressValues cs fs chunks, 0 ≤ v ∧ v ≤ 1)
    ∧ List.Chain' (· ≤ ·) (progressValues cs fs chunks)
    ∧ ∀ k : Nat, k < chunks.length →
        (progressValues cs fs chunks).getD k 0
          = ((min (((k : Int) + 1) * cs) fs : Int) : ℚ) / (fs : ℚ) := by
  rw [progressValues_closed cs fs hcs hfs]
  have hfsq : (0 : ℚ) < (fs : ℚ) := by exact_mod_cast hfs
  have hbound : ∀ k : Nat,
      (0 : ℚ) ≤ ((min (((k : Int) + 1) * cs) fs : Int) : ℚ) / (fs : ℚ)
      ∧ ((min (((k : Int) + 1) * cs) fs : Int) : ℚ) / (fs : ℚ) ≤ 1 := by
    intro k
    constructor
    · apply div_nonneg _ hfsq.le
      have h0 : (0 : Int) ≤ min (((k : Int) + 1) * cs) fs := by
        apply le_min
        · positivity
        · omega
      exact_mod_cast h0
    · rw [div_le_one hfsq]
      have h1 : min (((k : Int) + 1) * cs) fs ≤ fs := min_le_right _ _
      exact_mod_cast h1
  refine ⟨?_, ?_, ?_⟩
  · intro v hv
    obtain ⟨k, _, rfl⟩ := List.mem_map.mp hv
    exact hbound k
  · apply List.Pairwise.chain'
    apply List.pairwise_map.mpr
    apply (List.pairwise_lt_range _).imp
    intro a b hab
    have h2 : min (((a : Int) + 1) * cs) fs ≤ min (((b : Int) + 1) * cs) fs := by
      apply min_le_min _ le_rfl
      apply mul_le_mul_of_nonneg_right _ hcs
      omega
    rw [div_le_div_iff_of_pos_right hfsq]
    exact_mod_cast h2
  · intro k hk
    rw [List.getD_eq_getElem _ _ (by simpa using hk)]
    simp

/-- Witness for the amended C5 at chunk_size 4, content length 8, two
4-byte chunks. -/
theorem claim_C5_witness :
    ((0 : Int) ≤ 4 ∧ (0 : Int) < 8)
    ∧ ((∀ v ∈ progressValues 4 8 [4, 4], 0 ≤ v ∧ v ≤ 1)
        ∧ List.Chain' (· ≤ ·) (progressValues 4 8 [4, 4])
        ∧ ∀ k : Nat, k < ([4, 4] : List Nat).length →
            (progressValues 4 8 [4, 4]).getD k 0
              = ((min (((k : Int) + 1) * 4) 8 : Int) : ℚ) / ((8 : Int) : ℚ)) :=
  ⟨⟨by decide, by decide⟩, claim_C5_amended 4 8 [4, 4] (by decide) (by decide)⟩

/-! Embedding of the `param_dict={}` mutable-default-argument behaviour of
`loadCsv` (C9).  The default dictionary object is created once at function
definition time and shared by every call that does not pass its own
`param_dict`; the fill-in loop `for k in param_dict_default: if k not in
param_dict: param_dict[k] = param_dict_default[k]` mutates that shared
object in place. -/

/-- `param_dict[k] = v` guarded by `if k not in param_dict`. -/
def dictSetIfAbsent (d : List (String × PyVal)) (k : String) (v : PyVal) :
    List (String × PyVal) :=
  match d.lookup k with
  | some _ => d
  | Option.none => d ++ [(k, v)]

/-- The fill-in loop of `loadCsv`, iterating over `param_dict_default` in
its insertion order `sep`, `header`, `encoding`, `dtype`; the default for
`"encoding"` is the `encoding` parameter of the call. -/
def fillDefaults (d : List (String × PyVal)) (encoding : PyVal) :
    List (String × PyVal) :=
  dictSetIfAbsent
    (dictSetIfAbsent
      (dictSetIfAbsent
        (dictSetIfAbsent d "sep" (PyVal.str ","))
        "header" (PyVal.int 0))
      "encoding" encoding)
    "dtype" PyVal.none

/-- One `loadCsv` call as a transformer of the shared default dictionary:
given the current contents of the shared default object and the call's
`param_dict` argument (`none` means the default object is used), it returns
the effective parameter dictionary passed to `pd.read_csv` and the new
contents of the shared default object. -/
def loadCsvParamState (shared : List (String × PyVal))
    (explicit : Option (List (String × PyVal))) (encoding : PyVal) :
    (List (String × PyVal)) × (List (String × PyVal)) :=
  match explicit with
  | some d => (fillDefaults d encoding, shared)
  | Option.none =>
    let d := fillDefaults shared encoding
    (d, d)

/-- Claim C9 (evaluation at its failing input): after a first default-dict
call `loadCsv(id, encoding='latin-1')`, a second call with default
arguments parses with `encoding = 'latin-1'` — not the documented default
`None` — because the first call wrote its encoding into the shared mutable
default `param_dict`. -/
theorem claim_C9 :
    ((loadCsvParamState
        ((loadCsvParamState [] Option.none (PyVal.str "latin-1")).2)
        Option.none PyVal.none).1).lookup "encoding"
      = some (PyVal.str "latin-1")
    ∧ some (PyVal.str "latin-1") ≠ some PyVal.none := by
  refine ⟨rfl, ?_⟩
  intro h
  simp at h

/-! Embedding of `cleanData.py`'s `cli` and `main` (C10).  `argparse` stores
each option under the attribute derived from its long flag: `-a`/`--all`
yields attribute `all`, so the parsed namespace of `cleanData.cli` has the
attributes listed in `cleanNamespace` — and no attribute `all_data`. -/

/-- The namespace produced by `parser.parse_args()` in `cleanData.cli` for
any accepted argument vector: one attribute per registered option. -/
def cleanNamespace (a r j s p h : Bool) (o : String) : List (String × PyVal) :=
  [("all", PyVal.bool a), ("rki", PyVal.bool r), ("john_hopkins", PyVal.bool j),
   ("spain", PyVal.bool s), ("population", PyVal.bool p), ("hdf5", PyVal.bool h),
   ("out_path", PyVal.str o)]

/-- Embedding of the `return [args.all_data, args.rki, ...]` line of
`cleanData.cli`: each attribute access on the namespace either yields the
stored value or raises `AttributeError`. -/
def cleanCli (ns : List (String × PyVal)) : Except PyExc (List PyVal) :=
  match ns.lookup "all_data" with
  | Option.none => Except.error PyExc.attributeError
  | some v0 =>
    match ns.lookup "rki", ns.lookup "john_hopkins", ns.lookup "spain",
        ns.lookup "population", ns.lookup "hdf5", ns.lookup "out_path" with
    | some v1, some v2, some v3, some v4, some v5, some v6 =>
      Except.ok [v0, v1, v2, v3, v4, v5, v6]
    | _, _, _, _, _, _ => Except.error PyExc.attributeError

/-- Embedding of `cleanData.main`: run `cli()`, then call `clean_data` with
its result.  The `Bool` payload `true` marks that `clean_data` was
reached. -/
def cleanMain (ns : List (String × PyVal)) : Except PyExc Bool :=
  match cleanCli ns with
  | Except.error e => Except.error e
  | Except.ok _ => Except.ok true

/-- Claim C10: for every flag combination accepted by the parser,
`cleanData.cli` raises `AttributeError` (the flag is stored as `all`, but
the code reads `args.all_data`), so `main` never reaches `clean_data`. -/
theorem claim_C10 (a r j s p h : Bool) (o : String) :
    cleanMain (cleanNamespace a r j s p h o) = Except.error PyExc.attributeError := rfl

/-! Embedding of `write_dataframe` and `check_dir` (C6, C7, C8).  Only the
`Date` column of a dataframe matters to the claims, so a dataframe is
embedded as `Option (List DateVal)`: the `Date` column if one exists.  The
filesystem is embedded as the list of existing directories and the written
files; writing into a missing directory fails like `df.to_json` does. -/

/-- A value of a `Date` column: either a datetime (year, month, day) or an
already-converted string. -/
inductive DateVal where
  | dt (y m d : Nat)
  | str (s : String)
  deriving DecidableEq

/-- Does the value have Python type `str`? -/
def DateVal.isStr : DateVal → Bool
  | DateVal.str _ => true
  | _ => false

/-- Is the value a datetime? -/
def DateVal.isDt : DateVal → Bool
  | DateVal.dt _ _ _ => true
  | _ => false

/-- Zero-pad the decimal representation of `n` to width `w`, as `strftime`
does for `%Y`, `%m`, `%d`. -/
def padNum (w n : Nat) : String :=
  let s := toString n
  if s.length < w then String.mk (List.replicate (w - s.length) '0') ++ s else s

/-- The ISO `YYYY-MM-DD` rendering used by `strftime('%Y-%m-%d')`. -/
def isoOf (y m d : Nat) : String :=
  padNum 4 y ++ "-" ++ padNum 2 m ++ "-" ++ padNum 2 d

/-- `strftime` on one column value: datetimes format to ISO strings; on a
non-datetime column the `.dt` accessor itself raises. -/
def strfDate : DateVal → Except String DateVal
  | DateVal.dt y m d => Except.ok (DateVal.str (isoOf y m d))
  | DateVal.str _ =>
    Except.error "AttributeError: Can only use .dt accessor with datetimelike values"

/-- Total description of the coercion result on one value: datetimes become
ISO strings, strings stay themselves. -/
def strfTotal : DateVal → DateVal
  | DateVal.dt y m d => DateVal.str (isoOf y m d)
  | v => v

/-- Elementwise `strftime` over the column, propagating the first error. -/
def mapStrf : List DateVal → Except String (List DateVal)
  | [] => Except.ok []
  | v :: vs =>
    match strfDate v with
    | Except.error e => Except.error e
    | Except.ok w =>
      match mapStrf vs with
      | Except.error e => Except.error e
      | Except.ok ws => Except.ok (w :: ws)

/-- The date-coercion step of the `json_timeasstring` branch of
`write_dataframe`: `if not isinstance(df.Date.values[0], str): df.Date =
df.Date.dt.strftime('%Y-%m-%d')`.  Reading `values[0]` of an empty column
raises `IndexError`; if the first value is a string the column passes
through unchanged; otherwise the whole column is formatted. -/
def coerceDates : List DateVal → Except String (List DateVal)
  | [] => Except.error "IndexError: index 0 is out of bounds"
  | v :: vs =>
    match v with
    | DateVal.str _ => Except.ok (v :: vs)
    | DateVal.dt _ _ _ => mapStrf (v :: vs)

/-- The filesystem: existing directories, and the files written so far
(path and the `Date` column that was serialized). -/
structure FS where
  dirs : List String
  files : List (String × Option (List DateVal))
  deriving DecidableEq

/-- `os.path.join(directory, name)` for the shapes used here: insert a
separator unless the directory already ends in one. -/
def joinPath (directory fname : String) : String :=
  if directory.data.getLast? = some '/' then directory ++ fname
  else directory ++ "/" ++ fname

/-- The `outForm` dispatch table of `write_dataframe`: supported format
names and their file endings. -/
def outFormList : List (String × String) :=
  [("json", ".json"), ("json_timeasstring", ".json"), ("hdf5", ".h5"), ("txt", ".txt")]

/-- Embedding of `write_dataframe`: look the format up in `outForm` (a
`KeyError` is re-raised as the unsupported-format `ValueError` before
anything is written), build the output path, run the date coercion for
`json_timeasstring`, and write — which fails when the target directory does
not exist.  `write_dataframe` itself never creates a directory. -/
def write_dataframe (fs : FS) (df : Option (List DateVal))
    (directory fileStem file_type : String) : Except String FS :=
  match outFormList.lookup file_type with
  | Option.none =>
    Except.error ("Error: The file format: " ++ file_type
      ++ " does not exist. Use json, json_timeasstring, hdf5 or txt.")
  | some ext =>
    let out_path := joinPath directory (fileStem ++ ext)
    match (if file_type = "json_timeasstring" then
            match df with
            | some col => Except.map some (coerceDates col)
            | Option.none => Except.ok Option.none
          else Except.ok df) with
    | Except.error e => Except.error e
    | Except.ok d =>
      if directory ∈ fs.dirs then
        Except.ok { dirs := fs.dirs, files := fs.files ++ [(out_path, d)] }
      else
        Except.error ("FileNotFoundError: " ++ out_path)

/-- Embedding of `check_dir`: create the directory if it does not exist
(`os.makedirs` also creates missing parents; parents are not modelled
separately). -/
def check_dir (fs : FS) (directory : String) : FS :=
  if directory ∈ fs.dirs then fs
  else { dirs := fs.dirs ++ [directory], files := fs.files }

/-- Claim C6: an unsupported format makes `write_dataframe` raise the
unsupported-format error naming the format and the allowed set, and no file
is written (the error precedes any write, so no `ok` outcome exists). -/
theorem claim_C6 (fs : FS) (df : Option (List DateVal))
    (directory fileStem file_type : String)
    (h : file_type ∉ ["json", "json_timeasstring", "hdf5", "txt"]) :
    write_dataframe fs df directory fileStem file_type
        = Except.error ("Error: The file format: " ++ file_type
            ++ " does not exist. Use json, json_timeasstring, hdf5 or txt.")
    ∧ ∀ fs' : FS, write_dataframe fs df directory fileStem file_type ≠ Except.ok fs' := by
  have hl : outFormList.lookup file_type = Option.none := by
    simp only [List.mem_cons, List.not_mem_nil, or_false, not_or] at h
    obtain ⟨h1, h2, h3, h4⟩ := h
    have e1 : (file_type == "json") = false := beq_eq_false_iff_ne.mpr h1
    have e2 : (file_type == "json_timeasstring") = false := beq_eq_false_iff_ne.mpr h2
    have e3 : (file_type == "hdf5") = false := beq_eq_false_iff_ne.mpr h3
    have e4 : (file_type == "txt") = false := beq_eq_false_iff_ne.mpr h4
    simp [outFormList, List.lookup, e1, e2, e3, e4]
  unfold write_dataframe
  rw [hl]
  exact ⟨rfl, fun fs' h' => Except.noConfusion h'⟩

/-- Witness for C6 at the spec's `"xml"` example. -/
theorem claim_C6_witness :
    ("xml" ∉ ["json", "json_timeasstring", "hdf5", "txt"])
    ∧ (write_dataframe ⟨[], []⟩ Option.none "out/Germany/" "test" "xml"
          = Except.error ("Error: The file format: " ++ "xml"
              ++ " does not exist. Use json, json_timeasstring, hdf5 or txt.")
        ∧ ∀ fs' : FS,
            write_dataframe ⟨[], []⟩ Option.none "out/Germany/" "test" "xml"
              ≠ Except.ok fs') :=
  ⟨by decide, claim_C6 ⟨[], []⟩ Option.none "out/Germany/" "test" "xml" (by decide)⟩

/-- Counterexample for C7: with no directories present, a supported-format
write fails with `FileNotFoundError` — `write_dataframe` does not create
the missing target directory, contrary to the claim that the write never
fails for lack of the directory. -/
theorem claim_C7_counterexample :
    write_dataframe ⟨[], []⟩ Option.none "out/Germany/" "test" "json"
      = Except.error ("FileNotFoundError: " ++ joinPath "out/Germany/" ("test" ++ ".json")) := by
  rfl

/-- Claim C7 (amended): directory creation is done by the separate
`check_dir` (with parents, via `os.makedirs`), not by `write_dataframe`;
after a caller runs `check_dir` — as the callers in the repository do — the
directory exists and a supported-format write succeeds. -/
theorem claim_C7_amended (fs : FS) (d p ft : String)
    (hft : ft ∈ ["json", "json_timeasstring", "hdf5", "txt"]) :
    d ∈ (check_dir fs d).dirs
    ∧ ∃ fs' : FS, write_dataframe (check_dir fs d) Option.none d p ft = Except.ok fs' := by
  have hd : d ∈ (check_dir fs d).dirs := by
    unfold check_dir
    split
    · assumption
    · simp
  refine ⟨hd, ?_⟩
  have hlk : ∃ ext, outFormList.lookup ft = some ext := by
    simp only [List.mem_cons, List.not_mem_nil, or_false] at hft
    rcases hft with rfl | rfl | rfl | rfl <;> exact ⟨_, rfl⟩
  obtain ⟨ext, hext⟩ := hlk
  refine ⟨⟨(check_dir fs d).dirs,
    (check_dir fs d).files ++ [(joinPath d (p ++ ext), Option.none)]⟩, ?_⟩
  unfold write_dataframe
  rw [hext]
  have hco : (if ft = "json_timeasstring" then
        match (Option.none : Option (List DateVal)) with
        | some col => Except.map some (coerceDates col)
        | Option.none => Except.ok Option.none
      else Except.ok (Option.none : Option (List DateVal)))
      = Except.ok (Option.none : Option (List DateVal)) := by
    split <;> rfl
  rw [hco]
  show (if d ∈ (check_dir fs d).dirs then
      Except.ok (⟨(check_dir fs d).dirs,
        (check_dir fs d).files ++ [(joinPath d (p ++ ext), Option.none)]⟩ : FS)
    else Except.error ("FileNotFoundError: " ++ joinPath d (p ++ ext))) = _
  rw [if_pos hd]

/-- Witness for the amended C7. -/
theorem claim_C7_amended_witness :
    ("json" ∈ ["json", "json_timeasstring", "hdf5", "txt"])
    ∧ ("out/Germany/" ∈ (check_dir ⟨[], []⟩ "out/Germany/").dirs
        ∧ ∃ fs' : FS,
            write_dataframe (check_dir ⟨[], []⟩ "out/Germany/") Option.none
              "out/Germany/" "test" "json" = Except.ok fs') :=
  ⟨by decide, claim_C7_amended ⟨[], []⟩ "out/Germany/" "test" "json" (by decide)⟩

lemma mapStrf_of_dt (l : List DateVal) (h : ∀ v ∈ l, v.isDt = true) :
    mapStrf l = Except.ok (l.map strfTotal) := by
  induction l with
  | nil => rfl
  | cons v vs ih =>
    have hv := h v (by simp)
    cases v with
    | str s => simp [DateVal.isDt] at hv
    | dt y m d =>
      have ihv := ih (fun w hw => h w (by simp [hw]))
      unfold mapStrf
      rw [ihv]
      rfl

/-- Claim C8: on a nonempty homogeneous `Date` column the coercion step of
`write_dataframe`'s `json_timeasstring` branch succeeds, turns a datetime
column into ISO `YYYY-MM-DD` strings, passes an all-string column through
unchanged, and is idempotent (coercing the result again returns it
unchanged). -/
theorem claim_C8 (col : List DateVal) (hne : col ≠ [])
    (hom : (∀ v ∈ col, v.isDt = true) ∨ (∀ v ∈ col, v.isStr = true)) :
    ∃ out, coerceDates col = Except.ok out
      ∧ coerceDates out = Except.ok out
      ∧ ((∀ v ∈ col, v.isDt = true) → out = col.map strfTotal)
      ∧ ((∀ v ∈ col, v.isStr = true) → out = col) := by
  obtain ⟨v, vs, rfl⟩ : ∃ v vs, col = v :: vs := by
    cases col with
    | nil => exact absurd rfl hne
    | cons v vs => exact ⟨v, vs, rfl⟩
  rcases hom with hdt | hstr
  · have hv := hdt v (by simp)
    cases v with
    | str s => simp [DateVal.isDt] at hv
    | dt y m d =>
      refine ⟨(DateVal.dt y m d :: vs).map strfTotal, ?_, ?_, fun _ => rfl, ?_⟩
      · exact mapStrf_of_dt _ hdt
      · rfl
      · intro hstr2
        have h2 := hstr2 (DateVal.dt y m d) (by simp)
        simp [DateVal.isStr] at h2
  · have hv := hstr v (by simp)
    cases v with
    | dt y m d => simp [DateVal.isStr] at hv
    | str s =>
      refine ⟨DateVal.str s :: vs, rfl, rfl, ?_, fun _ => rfl⟩
      intro hdt2
      have h2 := hdt2 (DateVal.str s) (by simp)
      simp [DateVal.isDt] at h2

/-- Witness for C8 on a singleton datetime column. -/
theorem claim_C8_witness :
    (([DateVal.dt 2020 4 24] : List DateVal) ≠ [])
    ∧ ((∀ v ∈ ([DateVal.dt 2020 4 24] : List DateVal), v.isDt = true)
        ∨ (∀ v ∈ ([DateVal.dt 2020 4 24] : List DateVal), v.isStr = true))
    ∧ ∃ out, coerceDates [DateVal.dt 2020 4 24] = Except.ok out
        ∧ coerceDates out = Except.ok out
        ∧ ((∀ v ∈ ([DateVal.dt 2020 4 24] : List DateVal), v.isDt = true) →
            out = ([DateVal.dt 2020 4 24] : List DateVal).map strfTotal)
        ∧ ((∀ v ∈ ([DateVal.dt 2020 4 24] : List DateVal), v.isStr = true) →
            out = [DateVal.dt 2020 4 24]) :=
  ⟨by decide, by decide,
    claim_C8 [DateVal.dt 2020 4 24] (by decide) (Or.inl (by decide))⟩

end Memilio
